import Mathlib

/-!
Verification of the ingestion pipeline of cc-history-export.

The Go sources are shallowly embedded: Go `time.Time` values become `Int`
(a linear order with the distinguished zero value `0`, mirroring
`Time.IsZero`, `Before`, `After` and `Sub`); Go slices become `List`;
fallible operations return `Except` or `Option`; the external JSON
library (`encoding/json.Unmarshal`) is modelled by per-schema decode
oracles carried on the raw payload, since the control flow of the code
under verification only observes whether each unmarshal succeeds and
with which typed value.
-/

namespace CCExport

/-- Usage from internal/models/message.go: token usage information. -/
structure Usage where
  InputTokens : Int
  OutputTokens : Int
  CacheCreationInputTokens : Int
  CacheReadInputTokens : Int
deriving DecidableEq, Repr

/-- MessageContent from internal/models/message.go: one content block of an
assistant message. -/
structure MessageContent where
  Type' : String
  Text : String
  Thinking : String
  ID : String
  Name : String
  Input : String
deriving DecidableEq, Repr

/-- AssistantMessage from internal/models/message.go. -/
structure AssistantMessage where
  ID : String
  Type' : String
  Role : String
  Model : String
  Content : List MessageContent
  Usage : Option Usage
deriving DecidableEq, Repr

/-- UserMessage from internal/models/message.go. -/
structure UserMessage where
  Role : String
  Content : String
deriving DecidableEq, Repr

/-- ToolResult from internal/models/message.go. -/
structure ToolResult where
  ToolUseID : String
  Type' : String
  Content : String
deriving DecidableEq, Repr

/-- Decode oracles for the opaque `message` payload of a record: each field
records the outcome of the corresponding `json.Unmarshal` attempt made by
`Message.ParseContent` (none = that unmarshal fails). -/
structure RawPayload where
  /-- Unmarshal into the interior struct with fields role and raw content. -/
  userShape : Option (String × Option String × Option (List ToolResult))
  /-- Unmarshal into AssistantMessage. -/
  asAssistant : Option AssistantMessage
deriving DecidableEq, Repr

/-- The decoded `Content` field of a Message: Go stores it as `interface\x7b\x7d`
holding one of `*UserMessage`, `[]ToolResult` or `*AssistantMessage`. -/
inductive DecodedContent where
  | user (um : UserMessage)
  | toolResults (rs : List ToolResult)
  | assistant (am : AssistantMessage)
deriving DecidableEq, Repr

/-- MessageTypeUser from internal/models/message.go (MessageType is a string). -/
def MessageTypeUser : String := "user"

/-- MessageTypeAssistant from internal/models/message.go. -/
def MessageTypeAssistant : String := "assistant"

/-- Message from internal/models/message.go. `Type` is spelled `Type'` because
`Type` is reserved in Lean; the `Message` payload field is spelled `Msg`. -/
structure Message where
  UUID : String
  ParentUUID : Option String
  SessionID : String
  Type' : String
  UserType : String
  Timestamp : Int
  Msg : RawPayload
  Content : Option DecodedContent
deriving DecidableEq, Repr

/-- Session from internal/models/session.go. -/
structure Session where
  ID : String
  ProjectID : String
  StartTime : Int
  EndTime : Int
  Messages : List Message
deriving DecidableEq, Repr

/-- The Go zero value of Session, as built by the JSONL reader. -/
def emptySession : Session :=
  { ID := "", ProjectID := "", StartTime := 0, EndTime := 0, Messages := [] }

/-- Session.AddMessage from internal/models/session.go: append the message and
update the session timestamps incrementally. -/
def Session.AddMessage (s : Session) (msg : Message) : Session :=
  let messages := s.Messages ++ [msg]
  let start :=
    if s.StartTime = 0 ∨ msg.Timestamp < s.StartTime then msg.Timestamp
    else s.StartTime
  let stop :=
    if s.EndTime < msg.Timestamp then msg.Timestamp else s.EndTime
  { s with Messages := messages, StartTime := start, EndTime := stop }

/-- Session.GetMessageCount from internal/models/session.go. -/
def Session.GetMessageCount (s : Session) : Nat :=
  s.Messages.length

/-- Session.GetDuration from internal/models/session.go. -/
def Session.GetDuration (s : Session) : Int :=
  if s.StartTime = 0 ∨ s.EndTime = 0 then 0
  else s.EndTime - s.StartTime

/-- Session.GetTokenUsage from internal/models/session.go: fold over the
messages, accumulating tokens of assistant messages whose decoded content is
an AssistantMessage carrying a usage block. -/
def Session.GetTokenUsage (s : Session) : Int × Int :=
  s.Messages.foldl
    (fun acc msg =>
      if msg.Type' = MessageTypeAssistant then
        match msg.Content with
        | some (.assistant am) =>
          match am.Usage with
          | some u =>
            (acc.1 + u.InputTokens + u.CacheReadInputTokens, acc.2 + u.OutputTokens)
          | none => acc
        | _ => acc
      else acc)
    (0, 0)

/-- Builds a session by appending the given messages, in order, to the zero
session, exactly as the JSONL reader does. -/
def buildSession (msgs : List Message) : Session :=
  msgs.foldl Session.AddMessage emptySession

/-- ScanOptions from internal/reader/scanner.go. `MaxSessions` is a Go `int`
(0 = unlimited), hence `Int`. -/
structure ScanOptions where
  StartDate : Option Int
  EndDate : Option Int
  ProjectPaths : List String
  IncludeTodos : Bool
  IncludeShellSnapshots : Bool
  MaxSessions : Int
deriving DecidableEq, Repr

/-- Scanner.shouldIncludeSession from internal/reader/scanner.go: two guard
checks against the optional date bounds, both on the session EndTime. -/
def shouldIncludeSession (o : ScanOptions) (s : Session) : Bool :=
  if (match o.StartDate with
      | some sd => decide (s.EndTime < sd)
      | none => false) then false
  else if (match o.EndDate with
      | some ed => decide (ed < s.EndTime)
      | none => false) then false
  else true

/-- A concrete message used to instantiate theorems; every decode oracle
fails and the content is undecoded, matching a freshly unmarshalled record. -/
def mkMsg (uuid sid typ : String) (ts : Int) : Message :=
  { UUID := uuid, ParentUUID := none, SessionID := sid, Type' := typ,
    UserType := "", Timestamp := ts,
    Msg := { userShape := none, asAssistant := none }, Content := none }

/-- The usage block of a message, exactly when the message is an assistant
message whose content decoded to an AssistantMessage carrying usage. -/
def assistantUsage (m : Message) : Option Usage :=
  if m.Type' = MessageTypeAssistant then
    match m.Content with
    | some (.assistant am) => am.Usage
    | _ => none
  else none

/-! ### Go string library operations

`strings.Split`, `strings.Contains`, `strings.HasSuffix`,
`strings.TrimSuffix` and `strings.ReplaceAll` modelled structurally over
the character list of a string (the code only ever applies them to ASCII
separators, where byte-level and character-level behaviour agree). The
split runs on fuel so that it is structurally recursive and hence
evaluates inside the kernel; the fuel is always sufficient since each
step consumes at least one character. -/

/-- Splitting worker: walks the characters, cutting at each non-overlapping
occurrence of the separator, exactly like Go strings.Split with a
non-empty separator. -/
def splitAux (sep : List Char) : Nat → List Char → List Char → List (List Char)
  | _, [], acc => [acc.reverse]
  | 0, l, acc => [acc.reverse ++ l]
  | fuel+1, c :: rest, acc =>
    if sep.isPrefixOf (c :: rest) ∧ 0 < sep.length then
      acc.reverse :: splitAux sep fuel (List.drop (sep.length - 1) rest) []
    else splitAux sep fuel rest (c :: acc)

/-- Go strings.Split (for the non-empty separators the code uses). -/
def goSplit (s sep : String) : List String :=
  (splitAux sep.data (s.data.length + 1) s.data []).map String.mk

/-- Go strings.HasSuffix. -/
def goHasSuffix (s suffix : String) : Bool :=
  suffix.data.isSuffixOf s.data

/-- Go strings.TrimSuffix. -/
def goTrimSuffix (s suffix : String) : String :=
  if goHasSuffix s suffix then String.mk (s.data.take (s.data.length - suffix.data.length))
  else s

/-- Go strings.ReplaceAll, as Join(Split(s, old), new). -/
def goReplaceAll (s old new : String) : String :=
  String.mk (new.data.intercalate (splitAux old.data (s.data.length + 1) s.data []))

/-- Worker for substring containment. -/
def infixAux (needle : List Char) : List Char → Bool
  | [] => needle.isEmpty
  | c :: rest => needle.isPrefixOf (c :: rest) || infixAux needle rest

/-- Go strings.Contains. -/
def goContains (s sub : String) : Bool :=
  infixAux sub.data s.data

/-! ### Message content decoding (internal/models/message.go) -/

/-- Message.ParseContent from internal/models/message.go: decode the raw
payload according to the message type; returns the updated message and the
error that Go returns (the caller logs it and continues). -/
def ParseContent (m : Message) : Message × Option String :=
  if m.Type' = MessageTypeUser then
    if m.UserType = "external" then
      match m.Msg.userShape with
      | none => (m, some "unmarshal error")
      | some (role, contentAsString, contentAsToolResults) =>
        match contentAsString with
        | some c =>
          ({ m with Content := some (.user { Role := role, Content := c }) }, none)
        | none =>
          match contentAsToolResults with
          | some rs => ({ m with Content := some (.toolResults rs) }, none)
          | none => (m, none)
    else (m, none)
  else if m.Type' = MessageTypeAssistant then
    match m.Msg.asAssistant with
    | none => (m, some "unmarshal error")
    | some am => ({ m with Content := some (.assistant am) }, none)
  else (m, none)

/-! ### JSONL session reader (internal/reader/jsonl.go) -/

/-- One line of a JSONL stream, classified by what `json.Unmarshal` does to
it: empty, failing to parse as a record, or parsing to a Message (whose
`Content` is still nil). -/
inductive Line where
  | blank
  | malformed
  | record (m : Message)
deriving DecidableEq, Repr

/-- A diagnostic written to stderr by the reader: a line that failed to
parse as a record (with its 1-based number), or a message whose content
failed to decode (with its UUID). -/
inductive Warning where
  | parseLine (lineNum : Nat)
  | parseContent (uuid : String)
deriving DecidableEq, Repr

/-- The scan loop of JSONLReader.ReadSession: walks the lines, skipping
blank lines, warning about and skipping malformed lines, and for each
record setting the session ID from the first non-empty sessionId, decoding
its content best-effort and appending it to the session. -/
def readSessionLoop : List Line → Nat → Session → Session × List Warning
  | [], _, s => (s, [])
  | l :: rest, lineNum, s =>
    let n := lineNum + 1
    match l with
    | .blank => readSessionLoop rest n s
    | .malformed =>
      let r := readSessionLoop rest n s
      (r.1, .parseLine n :: r.2)
    | .record m =>
      let s1 := if s.ID = "" ∧ m.SessionID ≠ "" then { s with ID := m.SessionID } else s
      let pc := ParseContent m
      let r := readSessionLoop rest n (s1.AddMessage pc.1)
      match pc.2 with
      | some _ => (r.1, .parseContent m.UUID :: r.2)
      | none => r

/-- JSONLReader.ReadSession from internal/reader/jsonl.go: run the line
loop from the zero session and fail iff no messages were collected. -/
def ReadSession (lines : List Line) : Except String Session × List Warning :=
  let r := readSessionLoop lines 0 emptySession
  if r.1.Messages.isEmpty then (.error "no messages found in file", r.2)
  else (.ok r.1, r.2)

/-- The record carried by a line, if any. -/
def lineRecord : Line → Option Message
  | .record m => some m
  | _ => none

/-- 1-based positions (offset by base) of the malformed lines; blank lines
advance the numbering but are never reported. -/
def malformedPositions : List Line → Nat → List Nat
  | [], _ => []
  | l :: rest, base =>
    match l with
    | .malformed => (base + 1) :: malformedPositions rest (base + 1)
    | _ => malformedPositions rest (base + 1)

/-- The line number carried by a parse-failure warning. -/
def warningLineNum : Warning → Option Nat
  | .parseLine n => some n
  | .parseContent _ => none

/-- The sessionId of the first record carrying a non-empty one, or the
empty string. -/
def firstNonEmptyID (ms : List Message) : String :=
  match ms.find? (fun m => m.SessionID != "") with
  | some m => m.SessionID
  | none => ""

/-! ### Todo model (internal/models/todo.go) and reader -/

/-- Todo from internal/models/todo.go (status and priority are strings). -/
structure Todo where
  ID : String
  Content : String
  Status : String
  Priority : String
deriving DecidableEq, Repr

/-- TodoList from internal/models/todo.go. -/
structure TodoList where
  SessionID : String
  AgentID : String
  Todos : List Todo
deriving DecidableEq, Repr

/-- One directory entry of the archive's todos root: its filename, whether
it is a directory, and what TodoReader.Read yields for it (none = the file
is unreadable or fails to parse as a JSON array of todos). -/
structure TodoFileEntry where
  name : String
  isDir : Bool
  todos : Option (List Todo)
deriving DecidableEq, Repr

/-! ### Project model (internal/models/project.go) -/

/-- Project from internal/models/project.go. -/
structure Project where
  ID : String
  Path : String
  EncodedPath : String
  Sessions : List Session
  TodoLists : List TodoList
deriving DecidableEq, Repr

/-- NewProject from internal/models/project.go: the decoded path replaces
every hyphen with a slash. -/
def NewProject (encodedPath : String) : Project :=
  { ID := encodedPath, Path := goReplaceAll encodedPath "-" "/",
    EncodedPath := encodedPath, Sessions := [], TodoLists := [] }

/-- Project.AddSession from internal/models/project.go. -/
def Project.AddSession (p : Project) (s : Session) : Project :=
  { p with Sessions := p.Sessions ++ [{ s with ProjectID := p.ID }] }

/-- Project.AddTodoList from internal/models/project.go. -/
def Project.AddTodoList (p : Project) (tl : TodoList) : Project :=
  { p with TodoLists := p.TodoLists ++ [tl] }

/-! ### Scanner (internal/reader/scanner.go) -/

/-- One session file inside a project directory: its filename, whether it
is a directory, and the lines of its stream. -/
structure SessFile where
  name : String
  isDir : Bool
  lines : List Line
deriving DecidableEq, Repr

/-- One entry of the archive's projects root: a candidate project
directory and the session files inside it. -/
structure DirEntry where
  name : String
  isDir : Bool
  files : List SessFile
deriving DecidableEq, Repr

/-- The archive seen by the scanner: the entries of the projects root and
the todos root (none = the todos directory does not exist). -/
structure ClaudeDir where
  projects : List DirEntry
  todos : Option (List TodoFileEntry)
deriving DecidableEq, Repr

/-- Scanner.shouldProcessProject from internal/reader/scanner.go: keep the
directory when no path filter was supplied, or when the decoded path
contains one of the filter substrings. -/
def shouldProcessProject (o : ScanOptions) (encodedPath : String) : Bool :=
  if o.ProjectPaths.isEmpty then true
  else
    let decodedPath := goReplaceAll encodedPath "-" "/"
    o.ProjectPaths.any (fun filterPath => goContains decodedPath filterPath)

/-- Scanner.scanProjectSessions from internal/reader/scanner.go: for each
non-directory entry with the .jsonl suffix, read a session; a failed read
is logged and skipped, a successful one gets the project ID. -/
def scanProjectSessions (files : List SessFile) (projectID : String) : List Session :=
  files.foldl
    (fun sessions f =>
      if f.isDir ∨ ¬ goHasSuffix f.name ".jsonl" then sessions
      else
        match (ReadSession f.lines).1 with
        | .error _ => sessions
        | .ok s => sessions ++ [{ s with ProjectID := projectID }])
    []

/-- Scanner.scanProjectTodos from internal/reader/scanner.go: over the
todos root (missing directory = no lists), keep each .json file whose name
splits on the literal -agent- into exactly two parts and whose contents
read to a non-empty todo array. The projectID parameter is accepted but
never consulted, as in the source (the session/project association is
filename-driven only). -/
def scanProjectTodos (projectID : String) (todosDir : Option (List TodoFileEntry)) :
    List TodoList :=
  match todosDir with
  | none => []
  | some entries =>
    entries.foldl
      (fun todoLists e =>
        if e.isDir ∨ ¬ goHasSuffix e.name ".json" then todoLists
        else
          match goSplit e.name "-agent-" with
          | [sessionID, part1] =>
            match e.todos with
            | none => todoLists
            | some todos =>
              if 0 < todos.length then
                todoLists ++ [{ SessionID := sessionID,
                                AgentID := goTrimSuffix part1 ".json",
                                Todos := todos }]
              else todoLists
          | _ => todoLists)
      []

/-- The session loop of Scanner.ScanProjects: apply the date filter to each
session, add retained ones to the project, and stop as soon as the
cumulative retained count reaches a positive MaxSessions. Returns the
updated project, the new count and whether the cap was hit. -/
def addSessions (o : ScanOptions) : List Session → Project → Nat → Project × Nat × Bool
  | [], p, count => (p, count, false)
  | s :: rest, p, count =>
    if shouldIncludeSession o s then
      let p2 := p.AddSession s
      let count2 := count + 1
      if 0 < o.MaxSessions ∧ o.MaxSessions ≤ (count2 : Int) then (p2, count2, true)
      else addSessions o rest p2 count2
    else addSessions o rest p count

/-- The directory loop of Scanner.ScanProjects: skip non-directories and
filtered-out projects, build each remaining project from its session
files, return immediately (with the current project) when the session cap
is hit, otherwise attach todo lists when requested and keep the project if
it retained at least one session. -/
def scanLoop (o : ScanOptions) (td : Option (List TodoFileEntry)) :
    List DirEntry → Nat → List Project
  | [], _ => []
  | e :: rest, count =>
    if ¬ e.isDir then scanLoop o td rest count
    else if ¬ shouldProcessProject o e.name then scanLoop o td rest count
    else
      let project := NewProject e.name
      let sessions := scanProjectSessions e.files project.ID
      let r := addSessions o sessions project count
      if r.2.2 then [r.1]
      else
        let project2 :=
          if o.IncludeTodos then
            { r.1 with TodoLists := r.1.TodoLists ++ scanProjectTodos r.1.ID td }
          else r.1
        if 0 < project2.Sessions.length then project2 :: scanLoop o td rest r.2.1
        else scanLoop o td rest r.2.1

/-- Scanner.ScanProjects from internal/reader/scanner.go (the fatal cases,
a missing or unreadable projects directory, are outside the model: a
ClaudeDir value is a readable archive). -/
def ScanProjects (o : ScanOptions) (dir : ClaudeDir) : List Project :=
  scanLoop o dir.todos dir.projects 0

/-- Number of sessions a project directory contributes before the cap:
its parsed sessions that pass the date filter (zero if skipped). -/
def retainedCount (o : ScanOptions) (e : DirEntry) : Nat :=
  if e.isDir ∧ shouldProcessProject o e.name then
    ((scanProjectSessions e.files (NewProject e.name).ID).filter
      (shouldIncludeSession o)).length
  else 0

/-- Total retained-eligible sessions over a list of project directories. -/
def availableSessions (o : ScanOptions) (entries : List DirEntry) : Nat :=
  (entries.map (retainedCount o)).sum

/-- Total number of sessions across a list of projects. -/
def totalSessions (ps : List Project) : Nat :=
  (ps.map (fun p => p.Sessions.length)).sum

/-- The ID of the session of a successful read, if any. -/
def okSessionID : Except String Session → Option String
  | .ok s => some s.ID
  | .error _ => none

/-- The TodoList the todos scan attaches for one directory entry, if any:
the entry must not be a directory, must carry the .json suffix, its name
must split on -agent- into exactly two parts, and its contents must read
to a non-empty todo array. -/
def todoListOf (e : TodoFileEntry) : Option TodoList :=
  if e.isDir ∨ ¬ goHasSuffix e.name ".json" then none
  else
    match goSplit e.name "-agent-" with
    | [sessionID, part1] =>
      match e.todos with
      | some (t :: ts) =>
        some { SessionID := sessionID, AgentID := goTrimSuffix part1 ".json",
               Todos := t :: ts }
      | _ => none
    | _ => none

/-- Example scan options for concrete instantiations. -/
def exOpts (cap : Int) (todos : Bool) : ScanOptions :=
  { StartDate := none, EndDate := none, ProjectPaths := [],
    IncludeTodos := todos, IncludeShellSnapshots := false, MaxSessions := cap }

/-- Example session file holding one record. -/
def exSessionFile (name sid : String) (ts : Int) : SessFile :=
  { name := name, isDir := false, lines := [.record (mkMsg "u" sid "user" ts)] }

/-- Example project directory with one session. -/
def exProjA : DirEntry :=
  { name := "-proj-a", isDir := true, files := [exSessionFile "s1.jsonl" "sA" 10] }

/-- Example project directory with two sessions. -/
def exProjB : DirEntry :=
  { name := "-proj-b", isDir := true,
    files := [exSessionFile "s2.jsonl" "sB" 20, exSessionFile "s3.jsonl" "sC" 30] }

/-- Example todo file entry with one completed task. -/
def exTodoEntry : TodoFileEntry :=
  { name := "sA-agent-a1.json", isDir := false,
    todos := some [{ ID := "1", Content := "task", Status := "completed",
                     Priority := "high" }] }

/-- Example archive with three sessions across two projects and one todo
file. -/
def exDir : ClaudeDir :=
  { projects := [exProjA, exProjB], todos := some [exTodoEntry] }

/-! ### Lemmas about session building -/

theorem foldl_addMessage_messages (msgs : List Message) (s : Session) :
    (msgs.foldl Session.AddMessage s).Messages = s.Messages ++ msgs := by
  induction msgs generalizing s with
  | nil => simp
  | cons m rest ih =>
    simp only [List.foldl_cons, ih, Session.AddMessage, List.append_assoc,
      List.singleton_append]

theorem buildSession_messages (msgs : List Message) :
    (buildSession msgs).Messages = msgs := by
  simp [buildSession, foldl_addMessage_messages, emptySession]

theorem addMessage_start_pos (s : Session) (m : Message)
    (hs : 0 < s.StartTime ∨ s.StartTime = 0) (hm : 0 < m.Timestamp) :
    0 < (s.AddMessage m).StartTime := by
  simp only [Session.AddMessage]
  split
  · exact hm
  · rename_i h
    rcases hs with hs | hs
    · exact hs
    · exact absurd (Or.inl hs) h

theorem addMessage_start (s : Session) (m : Message) :
    (s.AddMessage m).StartTime =
      if s.StartTime = 0 ∨ m.Timestamp < s.StartTime then m.Timestamp
      else s.StartTime := rfl

theorem addMessage_end (s : Session) (m : Message) :
    (s.AddMessage m).EndTime =
      if s.EndTime < m.Timestamp then m.Timestamp else s.EndTime := rfl

/-- Core invariant: appending messages with positive timestamps keeps
StartTime equal to the minimum and EndTime equal to the maximum timestamp. -/
theorem buildSession_bounds (msgs : List Message)
    (hpos : ∀ m ∈ msgs, 0 < m.Timestamp) (hne : msgs ≠ []) :
    ((buildSession msgs).StartTime ∈ msgs.map Message.Timestamp ∧
      ∀ t ∈ msgs.map Message.Timestamp, (buildSession msgs).StartTime ≤ t) ∧
    ((buildSession msgs).EndTime ∈ msgs.map Message.Timestamp ∧
      ∀ t ∈ msgs.map Message.Timestamp, t ≤ (buildSession msgs).EndTime) := by
  induction msgs using List.reverseRecOn with
  | nil => exact absurd rfl hne
  | append_singleton ms m ih =>
    have hm : 0 < m.Timestamp := hpos m (by simp)
    have hstep : buildSession (ms ++ [m]) = (buildSession ms).AddMessage m := by
      simp [buildSession]
    rcases eq_or_ne ms [] with hms | hms
    · subst hms
      have hS : (buildSession ([] ++ [m])).StartTime = m.Timestamp := by
        simp [buildSession, emptySession, Session.AddMessage]
      have hE : (buildSession ([] ++ [m])).EndTime = m.Timestamp := by
        simp [buildSession, emptySession, Session.AddMessage, hm]
      rw [hS, hE]
      simp only [List.nil_append, List.map_cons, List.map_nil]
      refine ⟨⟨by simp, ?_⟩, by simp, ?_⟩ <;>
        · intro t ht
          simp only [List.mem_cons, List.not_mem_nil, or_false] at ht
          omega
    · have hposms : ∀ x ∈ ms, 0 < x.Timestamp := fun x hx => hpos x (by simp [hx])
      obtain ⟨⟨hsmem, hsle⟩, ⟨hemem, hege⟩⟩ := ih hposms hms
      have hstartpos : 0 < (buildSession ms).StartTime := by
        rcases List.mem_map.mp hsmem with ⟨x, hx, hxe⟩
        exact hxe ▸ hposms x hx
      rw [hstep]
      rw [addMessage_start, addMessage_end] at *
      simp only [List.map_append, List.map_cons, List.map_nil]
      refine ⟨⟨?_, ?_⟩, ⟨?_, ?_⟩⟩
      · split
        · exact List.mem_append_right _ (by simp)
        · exact List.mem_append_left _ hsmem
      · intro t ht
        rcases List.mem_append.mp ht with ht | ht
        · have h1 := hsle t ht
          split
          · rename_i h
            rcases h with h | h <;> omega
          · exact h1
        · simp only [List.mem_cons, List.not_mem_nil, or_false] at ht
          subst ht
          split
          · exact le_refl _
          · rename_i h
            push_neg at h
            exact h.2
      · split
        · exact List.mem_append_right _ (by simp)
        · exact List.mem_append_left _ hemem
      · intro t ht
        rcases List.mem_append.mp ht with ht | ht
        · have h1 := hege t ht
          split
          · rename_i h
            omega
          · exact h1
        · simp only [List.mem_cons, List.not_mem_nil, or_false] at ht
          subst ht
          split
          · exact le_refl _
          · rename_i h
            omega

/-! ### C1 -/

/-- C1 (counterexample): the claim fails when a message carries the
zero-valued timestamp (in Go, a record whose `timestamp` field is absent
leaves `time.Time` at its zero value). Appending timestamps 0 then 5,
the session StartTime becomes 5 although a message with timestamp 0 is
owned, so StartTime is not the minimum of the owned timestamps. -/
theorem C1_counterexample :
    (buildSession [mkMsg "u1" "" "user" 0, mkMsg "u2" "" "user" 5]).StartTime = 5 ∧
    (0 : Int) ∈ (buildSession [mkMsg "u1" "" "user" 0,
        mkMsg "u2" "" "user" 5]).Messages.map Message.Timestamp ∧
    ¬ ((buildSession [mkMsg "u1" "" "user" 0,
        mkMsg "u2" "" "user" 5]).StartTime ≤ (0 : Int)) := by
  refine ⟨by decide, by decide, by decide⟩

/-- C1 (amended): for every session built by appending messages with
AddMessage, provided every appended message has a timestamp strictly after
the Go zero time, StartTime equals the minimum and EndTime the maximum of
the owned timestamps (after each append, since the hypothesis restricts to
prefixes as well); a session with zero messages has zero-valued StartTime
and EndTime; and GetDuration returns zero whenever either bound is
zero-valued, otherwise EndTime - StartTime. -/
theorem C1_session_time_bounds (msgs : List Message)
    (hpos : ∀ m ∈ msgs, 0 < m.Timestamp) :
    (msgs = [] → (buildSession msgs).StartTime = 0 ∧ (buildSession msgs).EndTime = 0 ∧
      (buildSession msgs).GetDuration = 0) ∧
    (msgs ≠ [] →
      ((buildSession msgs).StartTime ∈ msgs.map Message.Timestamp ∧
        ∀ t ∈ msgs.map Message.Timestamp, (buildSession msgs).StartTime ≤ t) ∧
      ((buildSession msgs).EndTime ∈ msgs.map Message.Timestamp ∧
        ∀ t ∈ msgs.map Message.Timestamp, t ≤ (buildSession msgs).EndTime) ∧
      (buildSession msgs).GetDuration =
        (buildSession msgs).EndTime - (buildSession msgs).StartTime) ∧
    (∀ s : Session, s.StartTime = 0 ∨ s.EndTime = 0 → s.GetDuration = 0) := by
  refine ⟨?_, ?_, ?_⟩
  · rintro rfl
    exact ⟨rfl, rfl, rfl⟩
  · intro hne
    obtain ⟨hstart, hend⟩ := buildSession_bounds msgs hpos hne
    refine ⟨hstart, hend, ?_⟩
    have hsp : 0 < (buildSession msgs).StartTime := by
      rcases List.mem_map.mp hstart.1 with ⟨x, hx, hxe⟩
      exact hxe ▸ hpos x hx
    have hep : 0 < (buildSession msgs).EndTime := by
      rcases List.mem_map.mp hend.1 with ⟨x, hx, hxe⟩
      exact hxe ▸ hpos x hx
    simp only [Session.GetDuration]
    rw [if_neg]
    push_neg
    omega
  · intro s hz
    simp only [Session.GetDuration]
    rw [if_pos hz]

/-- C1 witness: the amended theorem applied to two concrete messages with
timestamps 5 and 3. -/
theorem C1_witness :
    (∀ m ∈ [mkMsg "a" "" "user" 5, mkMsg "b" "" "user" 3], 0 < m.Timestamp) ∧
    ((buildSession [mkMsg "a" "" "user" 5, mkMsg "b" "" "user" 3]).StartTime ∈
      [mkMsg "a" "" "user" 5, mkMsg "b" "" "user" 3].map Message.Timestamp ∧
      ∀ t ∈ [mkMsg "a" "" "user" 5, mkMsg "b" "" "user" 3].map Message.Timestamp,
        (buildSession [mkMsg "a" "" "user" 5, mkMsg "b" "" "user" 3]).StartTime ≤ t) := by
  refine ⟨by decide, ?_⟩
  have h := (C1_session_time_bounds
    [mkMsg "a" "" "user" 5, mkMsg "b" "" "user" 3] (by decide)).2.1 (by decide)
  exact h.1

/-! ### C2 -/

/-- C2: the scanner retains a session iff (start absent OR EndTime ≥ start)
AND (end absent OR EndTime ≤ end); both bounds are inclusive, and the
session StartTime plays no role in the decision. -/
theorem C2_date_filter (o : ScanOptions) (s : Session) :
    (shouldIncludeSession o s = true ↔
      ((∀ sd ∈ o.StartDate, sd ≤ s.EndTime) ∧ (∀ ed ∈ o.EndDate, s.EndTime ≤ ed))) ∧
    (∀ t : Int, shouldIncludeSession o { s with StartTime := t } =
      shouldIncludeSession o s) := by
  constructor
  · cases hsd : o.StartDate <;> cases hed : o.EndDate <;>
      simp [shouldIncludeSession, hsd, hed]
  · intro t
    cases hsd : o.StartDate <;> cases hed : o.EndDate <;>
      simp [shouldIncludeSession, hsd, hed]

/-! ### C5 -/

theorem getTokenUsage_foldl (msgs : List Message) (a b : Int) :
    (msgs.foldl
      (fun acc msg =>
        if msg.Type' = MessageTypeAssistant then
          match msg.Content with
          | some (.assistant am) =>
            match am.Usage with
            | some u =>
              (acc.1 + u.InputTokens + u.CacheReadInputTokens, acc.2 + u.OutputTokens)
            | none => acc
          | _ => acc
        else acc)
      (a, b)) =
    (a + ((msgs.filterMap assistantUsage).map
        (fun u => u.InputTokens + u.CacheReadInputTokens)).sum,
     b + ((msgs.filterMap assistantUsage).map (fun u => u.OutputTokens)).sum) := by
  induction msgs generalizing a b with
  | nil => simp
  | cons m rest ih =>
    simp only [List.foldl_cons, List.filterMap_cons]
    by_cases hty : m.Type' = MessageTypeAssistant
    · cases hc : m.Content with
      | none =>
        simp only [hty, if_true, hc, assistantUsage, if_pos hty]
        rw [ih]
      | some dc =>
        cases dc with
        | user um =>
          simp only [hty, if_true, hc, assistantUsage, if_pos hty]
          rw [ih]
        | toolResults rs =>
          simp only [hty, if_true, hc, assistantUsage, if_pos hty]
          rw [ih]
        | assistant am =>
          cases hu : am.Usage with
          | none =>
            simp only [hty, if_true, hc, hu, assistantUsage, if_pos hty]
            rw [ih]
          | some u =>
            simp only [hty, if_true, hc, hu, assistantUsage, if_pos hty]
            rw [ih]
            simp only [List.map_cons, List.sum_cons, Prod.mk.injEq]
            constructor <;> ring
    · simp only [hty, if_false, assistantUsage]
      exact ih a b

/-- C5: GetTokenUsage returns, as input, the sum over assistant messages
with decoded usage of input_tokens + cache_read_input_tokens and, as
output, the sum of output_tokens over the same messages; all other
messages contribute nothing and cache_creation_input_tokens is never
included (the right-hand sums do not mention it). -/
theorem C5_token_usage (s : Session) :
    s.GetTokenUsage =
      (((s.Messages.filterMap assistantUsage).map
          (fun u => u.InputTokens + u.CacheReadInputTokens)).sum,
       ((s.Messages.filterMap assistantUsage).map (fun u => u.OutputTokens)).sum) := by
  have h := getTokenUsage_foldl s.Messages 0 0
  simpa [Session.GetTokenUsage] using h

/-! ### Lemmas about the JSONL reader -/

theorem addMessage_id (s : Session) (m : Message) :
    (s.AddMessage m).ID = s.ID := rfl

theorem readSessionLoop_messages (lines : List Line) (n : Nat) (s : Session) :
    (readSessionLoop lines n s).1.Messages =
      s.Messages ++ (lines.filterMap lineRecord).map (fun m => (ParseContent m).1) := by
  induction lines generalizing n s with
  | nil => simp [readSessionLoop]
  | cons l rest ih =>
    cases l with
    | blank => simpa [readSessionLoop, lineRecord] using ih (n + 1) s
    | malformed => simpa [readSessionLoop, lineRecord] using ih (n + 1) s
    | record m =>
      simp only [readSessionLoop, lineRecord, List.filterMap_cons]
      cases hpc : (ParseContent m).2 <;>
        · simp only [ih]
          by_cases hid : s.ID = "" ∧ m.SessionID ≠ "" <;>
            simp [hid, Session.AddMessage, List.map_cons, List.append_assoc]

theorem readSessionLoop_warnings (lines : List Line) (n : Nat) (s : Session) :
    (readSessionLoop lines n s).2.filterMap warningLineNum =
      malformedPositions lines n := by
  induction lines generalizing n s with
  | nil => simp [readSessionLoop, malformedPositions]
  | cons l rest ih =>
    cases l with
    | blank => simpa [readSessionLoop, malformedPositions] using ih (n + 1) s
    | malformed =>
      simp only [readSessionLoop, malformedPositions, List.filterMap_cons,
        warningLineNum]
      rw [ih]
    | record m =>
      simp only [readSessionLoop, malformedPositions]
      cases hpc : (ParseContent m).2 with
      | none => exact ih (n + 1) _
      | some e =>
        simp only [List.filterMap_cons, warningLineNum]
        exact ih (n + 1) _

theorem readSessionLoop_id (lines : List Line) (n : Nat) (s : Session) :
    (readSessionLoop lines n s).1.ID =
      if s.ID = "" then firstNonEmptyID (lines.filterMap lineRecord) else s.ID := by
  induction lines generalizing n s with
  | nil =>
    simp only [readSessionLoop, List.filterMap_nil, firstNonEmptyID, List.find?]
    by_cases h : s.ID = "" <;> simp [h]
  | cons l rest ih =>
    cases l with
    | blank => simpa [readSessionLoop, lineRecord] using ih (n + 1) s
    | malformed => simpa [readSessionLoop, lineRecord] using ih (n + 1) s
    | record m =>
      simp only [readSessionLoop, lineRecord, List.filterMap_cons]
      have hfc : ∀ r : Session × List Warning,
          (match (ParseContent m).2 with
            | some _ => (r.1, Warning.parseContent m.UUID :: r.2)
            | none => r).1 = r.1 := by
        intro r
        cases (ParseContent m).2 <;> rfl
      rw [hfc, ih]
      by_cases hid : s.ID = "" ∧ m.SessionID ≠ ""
      · rw [if_pos hid, addMessage_id]
        have hID : ({ s with ID := m.SessionID } : Session).ID = m.SessionID := rfl
        rw [hID, if_neg hid.2, if_pos hid.1]
        simp only [firstNonEmptyID]
        rw [List.find?_cons_of_pos _ (by simpa using hid.2)]
      · rw [if_neg hid, addMessage_id]
        by_cases hsid : s.ID = ""
        · have hm : m.SessionID = "" := by
            by_contra hne
            exact hid ⟨hsid, hne⟩
          rw [if_pos hsid, if_pos hsid]
          simp only [firstNonEmptyID]
          rw [List.find?_cons_of_neg _ (by simp [hm])]
        · rw [if_neg hsid, if_neg hsid]

theorem readSession_ok (lines : List Line)
    (hne : lines.filterMap lineRecord ≠ []) :
    (ReadSession lines).1 =
      .ok (readSessionLoop lines 0 emptySession).1 := by
  simp only [ReadSession]
  rw [if_neg]
  simp only [List.isEmpty_iff, readSessionLoop_messages, emptySession]
  simpa using hne

/-! ### C4 -/

/-- C4: a malformed line is reported as a warning carrying its 1-based line
number and skipped while reading continues; blank lines are skipped
silently (they advance the numbering, produce nothing and warn nothing);
the collected messages are exactly the successfully parsed records, in
order; and a file of two well-formed lines around one malformed line
yields a session with exactly two messages and no fatal error. -/
theorem C4_malformed_line_tolerance :
    (∀ lines : List Line,
      (readSessionLoop lines 0 emptySession).1.Messages =
        (lines.filterMap lineRecord).map (fun m => (ParseContent m).1) ∧
      (readSessionLoop lines 0 emptySession).2.filterMap warningLineNum =
        malformedPositions lines 0) ∧
    (∀ (rest : List Line) (n : Nat) (s : Session),
      readSessionLoop (.blank :: rest) n s = readSessionLoop rest (n + 1) s) ∧
    (∀ m1 m2 : Message,
      (ReadSession [.record m1, .malformed, .record m2]).1 =
        .ok (readSessionLoop [.record m1, .malformed, .record m2] 0 emptySession).1 ∧
      (readSessionLoop [.record m1, .malformed, .record m2] 0
        emptySession).1.Messages.length = 2 ∧
      (ReadSession [.record m1, .malformed, .record m2]).2.filterMap
        warningLineNum = [2]) := by
  refine ⟨?_, ?_, ?_⟩
  · intro lines
    refine ⟨?_, readSessionLoop_warnings lines 0 emptySession⟩
    simpa [emptySession] using readSessionLoop_messages lines 0 emptySession
  · intro rest n s
    rfl
  · intro m1 m2
    refine ⟨readSession_ok _ (by simp [lineRecord]), ?_, ?_⟩
    · rw [readSessionLoop_messages]
      simp [lineRecord, emptySession]
    · have hw := readSessionLoop_warnings
        [.record m1, .malformed, .record m2] 0 emptySession
      simp only [ReadSession]
      split <;>
        · simp only
          rw [hw]
          simp [malformedPositions]

/-! ### C7 -/

/-- C7 (counterexample): the first record carries no session identifier,
yet the produced session is not left without one: its ID is taken from the
second record. -/
theorem C7_counterexample :
    okSessionID (ReadSession [.record (mkMsg "u1" "" "user" 3),
      .record (mkMsg "u2" "abc" "user" 5)]).1 = some "abc" ∧
    (mkMsg "u1" "" "user" 3).SessionID = "" := by
  refine ⟨by decide, by decide⟩

/-- C7 (amended): the Session's identity is the session identifier of the
first successfully parsed record that carries a non-empty one, and it is
empty when no record carries any. -/
theorem C7_session_identity (lines : List Line) (s : Session)
    (h : (ReadSession lines).1 = .ok s) :
    s.ID = firstNonEmptyID (lines.filterMap lineRecord) := by
  simp only [ReadSession] at h
  split at h
  · exact absurd h (by simp)
  · rw [show s = (readSessionLoop lines 0 emptySession).1 by
      injection h with h2
      exact h2.symm]
    rw [readSessionLoop_id]
    simp [emptySession]

/-- C7 witness: a file whose single record carries session id abc. -/
theorem C7_witness :
    (ReadSession [.record (mkMsg "u1" "abc" "user" 3)]).1 =
      .ok ((readSessionLoop [.record (mkMsg "u1" "abc" "user" 3)] 0
        emptySession).1) ∧
    (readSessionLoop [.record (mkMsg "u1" "abc" "user" 3)] 0
      emptySession).1.ID =
      firstNonEmptyID ([Line.record (mkMsg "u1" "abc" "user" 3)].filterMap
        lineRecord) := by
  refine ⟨rfl, ?_⟩
  exact C7_session_identity [.record (mkMsg "u1" "abc" "user" 3)] _ rfl

/-! ### C9 -/

/-- C9: an assistant record whose payload does not unmarshal as the fixed
assistant schema keeps its message undecoded (the message is returned
unchanged, so its Content stays nil) instead of failing the record: the
read still succeeds and the message is appended to the session. -/
theorem C9_assistant_decode_fallback (m : Message) (pre post : List Line)
    (hty : m.Type' = MessageTypeAssistant)
    (hdec : m.Msg.asAssistant = none) :
    ParseContent m = (m, some "unmarshal error") ∧
    (ReadSession (pre ++ .record m :: post)).1 =
      .ok (readSessionLoop (pre ++ .record m :: post) 0 emptySession).1 ∧
    m ∈ (readSessionLoop (pre ++ .record m :: post) 0
      emptySession).1.Messages := by
  have hne : m.Type' ≠ MessageTypeUser := by
    rw [hty]
    decide
  have hpc : ParseContent m = (m, some "unmarshal error") := by
    simp only [ParseContent, if_neg hne, if_pos hty, hdec]
  refine ⟨hpc, ?_, ?_⟩
  · exact readSession_ok _ (by simp [lineRecord])
  · rw [readSessionLoop_messages]
    simp only [emptySession, List.nil_append, List.filterMap_append,
      List.filterMap_cons, lineRecord, List.map_append]
    refine List.mem_append_right _ ?_
    simp [hpc]

/-! ### C6 -/

theorem readSession_error_of_no_records (lines : List Line)
    (h0 : lines.filterMap lineRecord = []) :
    (ReadSession lines).1 = .error "no messages found in file" := by
  simp only [ReadSession]
  rw [if_pos]
  simp [readSessionLoop_messages, emptySession, h0]

theorem scanProjectSessions_skip (f : SessFile) (pid : String)
    (files1 files2 : List SessFile)
    (hf : ∃ err, (ReadSession f.lines).1 = .error err) :
    scanProjectSessions (files1 ++ f :: files2) pid =
      scanProjectSessions (files1 ++ files2) pid := by
  obtain ⟨err, herr⟩ := hf
  have h : ∀ X : List Session,
      (if f.isDir = true ∨ ¬ goHasSuffix f.name ".jsonl" = true then X
       else match (ReadSession f.lines).1 with
         | .error _ => X
         | .ok s => X ++ [{ s with ProjectID := pid }]) = X := by
    intro X
    by_cases h1 : f.isDir = true ∨ ¬ goHasSuffix f.name ".jsonl" = true
    · exact if_pos h1
    · rw [if_neg h1, herr]
  simp only [scanProjectSessions, List.foldl_append, List.foldl_cons]
  rw [h]

theorem scanLoop_skip_file (o : ScanOptions) (td : Option (List TodoFileEntry))
    (name : String) (d : Bool) (files1 files2 : List SessFile) (f : SessFile)
    (hf : ∃ err, (ReadSession f.lines).1 = .error err) :
    ∀ (pre post : List DirEntry) (count : Nat),
      scanLoop o td (pre ++ ⟨name, d, files1 ++ f :: files2⟩ :: post) count =
        scanLoop o td (pre ++ ⟨name, d, files1 ++ files2⟩ :: post) count := by
  intro pre
  induction pre with
  | nil =>
    intro post count
    simp only [List.nil_append, scanLoop,
      scanProjectSessions_skip f _ files1 files2 hf]
  | cons p rest ih =>
    intro post count
    simp only [List.cons_append, scanLoop, List.append_eq, ih]

/-- C6: a session file whose stream yields zero successfully parsed records
fails with the no-messages-found error, and that failure is local: the
scanner skips just that file, and both the remaining session files of the
project and the remaining project directories are scanned exactly as if
the failing file were absent. -/
theorem C6_empty_file_is_local (lines : List Line) (f : SessFile)
    (files1 files2 : List SessFile) (pid : String) (o : ScanOptions)
    (td : Option (List TodoFileEntry)) (name : String) (d : Bool)
    (pre post : List DirEntry) (count : Nat)
    (h0 : lines.filterMap lineRecord = [])
    (hf : ∃ err, (ReadSession f.lines).1 = .error err) :
    (ReadSession lines).1 = .error "no messages found in file" ∧
    scanProjectSessions (files1 ++ f :: files2) pid =
      scanProjectSessions (files1 ++ files2) pid ∧
    scanLoop o td (pre ++ ⟨name, d, files1 ++ f :: files2⟩ :: post) count =
      scanLoop o td (pre ++ ⟨name, d, files1 ++ files2⟩ :: post) count := by
  exact ⟨readSession_error_of_no_records lines h0,
    scanProjectSessions_skip f pid files1 files2 hf,
    scanLoop_skip_file o td name d files1 files2 f hf pre post count⟩

/-- C6 witness: a project directory holding one all-malformed session file
followed by one well-formed session file. -/
theorem C6_witness :
    ([Line.malformed].filterMap lineRecord = []) ∧
    (∃ err, (ReadSession [Line.malformed]).1 = .error err) ∧
    ((ReadSession [Line.malformed]).1 = .error "no messages found in file" ∧
     scanProjectSessions ([] ++ (⟨"bad.jsonl", false, [Line.malformed]⟩ : SessFile) ::
        [⟨"good.jsonl", false, [Line.record (mkMsg "u1" "sA" "user" 4)]⟩]) "p1" =
       scanProjectSessions ([] ++
        [⟨"good.jsonl", false, [Line.record (mkMsg "u1" "sA" "user" 4)]⟩]) "p1" ∧
     scanLoop (⟨none, none, [], false, false, 0⟩ : ScanOptions) none
        ([] ++ (⟨"pA", true, [] ++ (⟨"bad.jsonl", false, [Line.malformed]⟩ : SessFile) ::
          [⟨"good.jsonl", false, [Line.record (mkMsg "u1" "sA" "user" 4)]⟩]⟩ : DirEntry) :: []) 0 =
       scanLoop (⟨none, none, [], false, false, 0⟩ : ScanOptions) none
        ([] ++ (⟨"pA", true, [] ++
          [⟨"good.jsonl", false, [Line.record (mkMsg "u1" "sA" "user" 4)]⟩]⟩ : DirEntry) :: []) 0) := by
  refine ⟨by decide, ⟨"no messages found in file", rfl⟩, ?_⟩
  exact C6_empty_file_is_local [Line.malformed]
    ⟨"bad.jsonl", false, [Line.malformed]⟩ []
    [⟨"good.jsonl", false, [Line.record (mkMsg "u1" "sA" "user" 4)]⟩] "p1"
    ⟨none, none, [], false, false, 0⟩ none "pA" true [] [] 0
    (by decide) ⟨"no messages found in file", rfl⟩

/-! ### C8 -/

theorem scanProjectTodos_foldl (pid : String) (es : List TodoFileEntry) :
    ∀ acc : List TodoList,
      es.foldl
        (fun todoLists e =>
          if e.isDir ∨ ¬ goHasSuffix e.name ".json" then todoLists
          else
            match goSplit e.name "-agent-" with
            | [sessionID, part1] =>
              match e.todos with
              | none => todoLists
              | some todos =>
                if 0 < todos.length then
                  todoLists ++ [{ SessionID := sessionID,
                                  AgentID := goTrimSuffix part1 ".json",
                                  Todos := todos }]
                else todoLists
            | _ => todoLists) acc =
      acc ++ es.filterMap todoListOf := by
  induction es with
  | nil =>
    intro acc
    simp
  | cons e rest ih =>
    intro acc
    rw [List.foldl_cons, List.filterMap_cons, ih]
    by_cases h1 : e.isDir = true ∨ goHasSuffix e.name ".json" = false
    · simp [h1, todoListOf]
    · rcases hsp : goSplit e.name "-agent-" with _ | ⟨sid, _ | ⟨p1, _ | ⟨x, xs⟩⟩⟩
      · simp [h1, todoListOf, hsp]
      · simp [h1, todoListOf, hsp]
      · cases htd : e.todos with
        | none => simp [h1, todoListOf, hsp, htd]
        | some todos =>
          cases todos with
          | nil => simp [h1, todoListOf, hsp, htd]
          | cons t ts => simp [h1, todoListOf, hsp, htd]
      · simp [h1, todoListOf, hsp]

/-- C8 (counterexample): a todo file whose name matches the
sessionID-agent-agentID.json pattern but whose contents parse to an empty
array is read without error yet no TodoList is attached, contradicting the
claim that every pattern-matching file is attached. -/
theorem C8_counterexample :
    scanProjectTodos "p1"
      (some [{ name := "s1-agent-a1.json", isDir := false, todos := some [] }]) = [] ∧
    goSplit "s1-agent-a1.json" "-agent-" = ["s1", "a1.json"] ∧
    goHasSuffix "s1-agent-a1.json" ".json" = true := by
  refine ⟨by decide, by decide, by decide⟩

/-- C8 (amended): the todos scan attaches exactly the TodoLists of the
non-directory .json entries whose filename splits on the literal -agent-
into one session/agent pair and whose file reads to a non-empty todo
array; entries failing to read, parsing to an empty array, or not matching
the pattern are skipped; the result never depends on the scanned project
(no cross-check against its sessions); and a missing todos directory
yields zero todo lists rather than an error. -/
theorem C8_todo_attachment (pid1 pid2 : String) (entries : List TodoFileEntry) :
    scanProjectTodos pid1 none = [] ∧
    scanProjectTodos pid1 (some entries) = entries.filterMap todoListOf ∧
    scanProjectTodos pid1 (some entries) = scanProjectTodos pid2 (some entries) := by
  refine ⟨rfl, ?_, rfl⟩
  have h := scanProjectTodos_foldl pid1 entries []
  rw [List.nil_append] at h
  exact h

/-! ### Lemmas about the session cap -/

theorem addSession_length (p : Project) (s : Session) :
    (p.AddSession s).Sessions.length = p.Sessions.length + 1 := by
  simp [Project.AddSession]

theorem addSessions_len (o : ScanOptions) :
    ∀ (ss : List Session) (p : Project) (count : Nat),
      (addSessions o ss p count).1.Sessions.length + count =
        p.Sessions.length + (addSessions o ss p count).2.1 := by
  intro ss
  induction ss with
  | nil =>
    intro p count
    rfl
  | cons s rest ih =>
    intro p count
    simp only [addSessions]
    by_cases hinc : shouldIncludeSession o s = true
    · rw [if_pos hinc]
      by_cases hcap : 0 < o.MaxSessions ∧ o.MaxSessions ≤ ((count + 1 : Nat) : Int)
      · rw [if_pos hcap]
        simp only [addSession_length]
        omega
      · rw [if_neg hcap]
        have h := ih (p.AddSession s) (count + 1)
        rw [addSession_length] at h
        omega
    · rw [if_neg hinc]
      exact ih p count

theorem addSessions_todoLists (o : ScanOptions) :
    ∀ (ss : List Session) (p : Project) (count : Nat),
      (addSessions o ss p count).1.TodoLists = p.TodoLists := by
  intro ss
  induction ss with
  | nil =>
    intro p count
    rfl
  | cons s rest ih =>
    intro p count
    simp only [addSessions]
    by_cases hinc : shouldIncludeSession o s = true
    · rw [if_pos hinc]
      by_cases hcap : 0 < o.MaxSessions ∧ o.MaxSessions ≤ ((count + 1 : Nat) : Int)
      · rw [if_pos hcap]
        rfl
      · rw [if_neg hcap]
        exact ih (p.AddSession s) (count + 1)
    · rw [if_neg hinc]
      exact ih p count

theorem addSessions_projID (o : ScanOptions) :
    ∀ (ss : List Session) (p : Project) (count : Nat),
      (addSessions o ss p count).1.ID = p.ID := by
  intro ss
  induction ss with
  | nil =>
    intro p count
    rfl
  | cons s rest ih =>
    intro p count
    simp only [addSessions]
    by_cases hinc : shouldIncludeSession o s = true
    · rw [if_pos hinc]
      by_cases hcap : 0 < o.MaxSessions ∧ o.MaxSessions ≤ ((count + 1 : Nat) : Int)
      · rw [if_pos hcap]
        rfl
      · rw [if_neg hcap]
        exact ih (p.AddSession s) (count + 1)
    · rw [if_neg hinc]
      exact ih p count

theorem addSessions_cap_true (o : ScanOptions) (hm : 0 < o.MaxSessions) :
    ∀ (ss : List Session) (p : Project) (count : Nat),
      (count : Int) < o.MaxSessions →
      (addSessions o ss p count).2.2 = true →
      ((addSessions o ss p count).2.1 : Int) = o.MaxSessions := by
  intro ss
  induction ss with
  | nil =>
    intro p count hc h
    exact absurd h (by simp [addSessions])
  | cons s rest ih =>
    intro p count hc h
    simp only [addSessions] at h ⊢
    by_cases hinc : shouldIncludeSession o s = true
    · rw [if_pos hinc] at h ⊢
      by_cases hcap : 0 < o.MaxSessions ∧ o.MaxSessions ≤ ((count + 1 : Nat) : Int)
      · rw [if_pos hcap]
        have h2 := hcap.2
        show ((count + 1 : Nat) : Int) = o.MaxSessions
        omega
      · rw [if_neg hcap] at h ⊢
        exact ih (p.AddSession s) (count + 1) (by omega) h
    · rw [if_neg hinc] at h ⊢
      exact ih p count hc h

theorem addSessions_cap_false (o : ScanOptions) (hm : 0 < o.MaxSessions) :
    ∀ (ss : List Session) (p : Project) (count : Nat),
      (count : Int) < o.MaxSessions →
      (addSessions o ss p count).2.2 = false →
      ((addSessions o ss p count).2.1 : Int) < o.MaxSessions ∧
      (addSessions o ss p count).2.1 =
        count + (ss.filter (shouldIncludeSession o)).length := by
  intro ss
  induction ss with
  | nil =>
    intro p count hc h
    exact ⟨hc, by simp [addSessions]⟩
  | cons s rest ih =>
    intro p count hc h
    simp only [addSessions] at h ⊢
    by_cases hinc : shouldIncludeSession o s = true
    · rw [if_pos hinc] at h ⊢
      rw [List.filter_cons_of_pos hinc]
      by_cases hcap : 0 < o.MaxSessions ∧ o.MaxSessions ≤ ((count + 1 : Nat) : Int)
      · rw [if_pos hcap] at h
        exact absurd h (by simp)
      · rw [if_neg hcap] at h ⊢
        obtain ⟨h1, h2⟩ := ih (p.AddSession s) (count + 1) (by omega) h
        refine ⟨h1, ?_⟩
        rw [h2]
        simp only [List.length_cons]
        omega
    · rw [if_neg hinc] at h ⊢
      rw [List.filter_cons_of_neg hinc]
      exact ih p count hc h

theorem NewProject_sessions (encodedPath : String) :
    (NewProject encodedPath).Sessions = [] := rfl

theorem NewProject_todoLists (encodedPath : String) :
    (NewProject encodedPath).TodoLists = [] := rfl

theorem availableSessions_cons (o : ScanOptions) (e : DirEntry)
    (rest : List DirEntry) :
    availableSessions o (e :: rest) = retainedCount o e + availableSessions o rest := by
  simp [availableSessions]

theorem retainedCount_skip (o : ScanOptions) (e : DirEntry)
    (h : ¬ (e.isDir = true ∧ shouldProcessProject o e.name = true)) :
    retainedCount o e = 0 := by
  simp only [retainedCount]
  rw [if_neg h]

theorem retainedCount_main (o : ScanOptions) (e : DirEntry)
    (hd : e.isDir = true) (hp : shouldProcessProject o e.name = true) :
    retainedCount o e =
      ((scanProjectSessions e.files (NewProject e.name).ID).filter
        (shouldIncludeSession o)).length := by
  simp only [retainedCount]
  rw [if_pos ⟨hd, hp⟩]

theorem scanLoop_le (o : ScanOptions) (td : Option (List TodoFileEntry))
    (hm : 0 < o.MaxSessions) :
    ∀ (entries : List DirEntry) (count : Nat),
      (count : Int) < o.MaxSessions →
      (count : Int) + totalSessions (scanLoop o td entries count) ≤ o.MaxSessions := by
  intro entries
  induction entries with
  | nil =>
    intro count hc
    simp only [scanLoop, totalSessions, List.map_nil, List.sum_nil]
    omega
  | cons e rest ih =>
    intro count hc
    simp only [scanLoop]
    by_cases hd : e.isDir = true
    · rw [if_neg (not_not_intro hd)]
      by_cases hp : shouldProcessProject o e.name = true
      · rw [if_neg (not_not_intro hp)]
        have hlen := addSessions_len o
          (scanProjectSessions e.files (NewProject e.name).ID) (NewProject e.name) count
        cases hcap : (addSessions o
            (scanProjectSessions e.files (NewProject e.name).ID)
            (NewProject e.name) count).2.2 with
        | true =>
          rw [if_pos rfl]
          have hmax := addSessions_cap_true o hm
            (scanProjectSessions e.files (NewProject e.name).ID)
            (NewProject e.name) count hc hcap
          rw [NewProject_sessions, List.length_nil] at hlen
          simp only [totalSessions, List.map_cons, List.map_nil, List.sum_cons,
            List.sum_nil]
          omega
        | false =>
          rw [if_neg (by simp)]
          have hlt := (addSessions_cap_false o hm
            (scanProjectSessions e.files (NewProject e.name).ID)
            (NewProject e.name) count hc hcap).1
          have hrec := ih (addSessions o
            (scanProjectSessions e.files (NewProject e.name).ID)
            (NewProject e.name) count).2.1 hlt
          rw [NewProject_sessions, List.length_nil] at hlen
          by_cases hti : o.IncludeTodos = true
          · rw [if_pos hti]
            split
            · simp only [totalSessions, List.map_cons, List.sum_cons] at hrec ⊢
              omega
            · simp only [totalSessions] at hrec ⊢
              omega
          · rw [if_neg hti]
            split
            · simp only [totalSessions, List.map_cons, List.sum_cons] at hrec ⊢
              omega
            · simp only [totalSessions] at hrec ⊢
              omega
      · rw [if_pos hp]
        exact ih count hc
    · rw [if_pos hd]
      exact ih count hc

theorem scanLoop_exact (o : ScanOptions) (td : Option (List TodoFileEntry))
    (hm : 0 < o.MaxSessions) :
    ∀ (entries : List DirEntry) (count : Nat),
      (count : Int) < o.MaxSessions →
      o.MaxSessions ≤ (count : Int) + availableSessions o entries →
      ((count : Int) + totalSessions (scanLoop o td entries count) = o.MaxSessions) ∧
      (o.IncludeTodos = true →
        ∃ ps p, scanLoop o td entries count = ps ++ [p] ∧ p.TodoLists = [] ∧
          ∀ q ∈ ps, q.TodoLists = scanProjectTodos q.ID td) := by
  intro entries
  induction entries with
  | nil =>
    intro count hc hav
    simp only [availableSessions, List.map_nil, List.sum_nil] at hav
    omega
  | cons e rest ih =>
    intro count hc hav
    rw [availableSessions_cons] at hav
    simp only [scanLoop]
    by_cases hd : e.isDir = true
    · by_cases hp : shouldProcessProject o e.name = true
      · rw [if_neg (not_not_intro hd), if_neg (not_not_intro hp)]
        rw [retainedCount_main o e hd hp] at hav
        have hlen := addSessions_len o
          (scanProjectSessions e.files (NewProject e.name).ID) (NewProject e.name) count
        rw [NewProject_sessions, List.length_nil] at hlen
        cases hcap : (addSessions o
            (scanProjectSessions e.files (NewProject e.name).ID)
            (NewProject e.name) count).2.2 with
        | true =>
          rw [if_pos rfl]
          have hmax := addSessions_cap_true o hm
            (scanProjectSessions e.files (NewProject e.name).ID)
            (NewProject e.name) count hc hcap
          constructor
          · simp only [totalSessions, List.map_cons, List.map_nil, List.sum_cons,
              List.sum_nil]
            omega
          · intro _
            refine ⟨[], (addSessions o (scanProjectSessions e.files
              (NewProject e.name).ID) (NewProject e.name) count).1,
              by simp, ?_, by simp⟩
            rw [addSessions_todoLists, NewProject_todoLists]
        | false =>
          rw [if_neg (by simp)]
          obtain ⟨hlt, hcnt⟩ := addSessions_cap_false o hm
            (scanProjectSessions e.files (NewProject e.name).ID)
            (NewProject e.name) count hc hcap
          have hav2 : o.MaxSessions ≤
              ((addSessions o (scanProjectSessions e.files (NewProject e.name).ID)
                (NewProject e.name) count).2.1 : Int) + availableSessions o rest := by
            omega
          obtain ⟨hsum, hex⟩ := ih (addSessions o
            (scanProjectSessions e.files (NewProject e.name).ID)
            (NewProject e.name) count).2.1 hlt hav2
          by_cases hti : o.IncludeTodos = true
          · rw [if_pos hti]
            split
            · constructor
              · simp only [totalSessions, List.map_cons, List.sum_cons] at hsum ⊢
                omega
              · intro _
                obtain ⟨ps, q, hrw, hq, hps⟩ := hex hti
                refine ⟨({ (addSessions o (scanProjectSessions e.files
                    (NewProject e.name).ID) (NewProject e.name) count).1 with
                    TodoLists := (addSessions o (scanProjectSessions e.files
                      (NewProject e.name).ID) (NewProject e.name) count).1.TodoLists ++
                      scanProjectTodos (addSessions o (scanProjectSessions e.files
                        (NewProject e.name).ID) (NewProject e.name) count).1.ID td }) ::
                    ps, q, ?_, hq, ?_⟩
                · rw [hrw]
                  simp
                · intro x hx
                  rcases List.mem_cons.mp hx with hx | hx
                  · subst hx
                    simp only []
                    rw [addSessions_todoLists, NewProject_todoLists,
                      List.nil_append]
                  · exact hps x hx
            · rename_i hkeep
              constructor
              · have hkeep2 : ¬ 0 < (addSessions o (scanProjectSessions e.files
                    (NewProject e.name).ID) (NewProject e.name)
                    count).1.Sessions.length := hkeep
                simp only [totalSessions] at hsum ⊢
                omega
              · exact hex
          · rw [if_neg hti]
            split
            · constructor
              · simp only [totalSessions, List.map_cons, List.sum_cons] at hsum ⊢
                omega
              · intro hcontra
                exact absurd hcontra hti
            · constructor
              · simp only [totalSessions] at hsum ⊢
                omega
              · intro hcontra
                exact absurd hcontra hti
      · rw [if_neg (not_not_intro hd), if_pos hp]
        rw [retainedCount_skip o e (by simp [hp])] at hav
        exact ih count hc (by omega)
    · rw [if_pos hd]
      rw [retainedCount_skip o e (by simp [hd])] at hav
      exact ih count hc (by omega)

/-! ### C3 -/

/-- C3: with a positive session cap m, the total number of sessions across
all projects returned by ScanProjects never exceeds m, and whenever at
least m retained-eligible sessions are available the scan stops early at
exactly m sessions, returning the projects accumulated so far including
the one whose session completed the cap. -/
theorem C3_session_cap (o : ScanOptions) (dir : ClaudeDir)
    (hm : 0 < o.MaxSessions) :
    (totalSessions (ScanProjects o dir) : Int) ≤ o.MaxSessions ∧
    (o.MaxSessions ≤ (availableSessions o dir.projects : Int) →
      (totalSessions (ScanProjects o dir) : Int) = o.MaxSessions) := by
  constructor
  · have h := scanLoop_le o dir.todos hm dir.projects 0 (by omega)
    simpa [ScanProjects] using h
  · intro hav
    have h := (scanLoop_exact o dir.todos hm dir.projects 0 (by omega)
      (by simpa using hav)).1
    simpa [ScanProjects] using h

/-- C3 witness: session cap 2 across 3 available sessions in 2 projects
yields exactly 2 sessions in total. -/
theorem C3_witness :
    (0 : Int) < (exOpts 2 true).MaxSessions ∧
    (totalSessions (ScanProjects (exOpts 2 true) exDir) : Int) ≤
      (exOpts 2 true).MaxSessions ∧
    ((exOpts 2 true).MaxSessions ≤
      (availableSessions (exOpts 2 true) exDir.projects : Int) ∧
     (totalSessions (ScanProjects (exOpts 2 true) exDir) : Int) =
      (exOpts 2 true).MaxSessions) := by
  refine ⟨by decide, (C3_session_cap (exOpts 2 true) exDir (by decide)).1,
    by decide, (C3_session_cap (exOpts 2 true) exDir (by decide)).2 (by decide)⟩

/-! ### C10 -/

/-- C10: when the global session cap is reached while adding a retained
session to a project and todo inclusion is requested, ScanProjects returns
immediately with that project included last and carrying no todo lists,
while every earlier returned project keeps the todo lists the todos scan
attaches for it. -/
theorem C10_cap_skips_todos (o : ScanOptions) (dir : ClaudeDir)
    (hm : 0 < o.MaxSessions)
    (hav : o.MaxSessions ≤ (availableSessions o dir.projects : Int))
    (ht : o.IncludeTodos = true) :
    ∃ ps p, ScanProjects o dir = ps ++ [p] ∧ p.TodoLists = [] ∧
      ∀ q ∈ ps, q.TodoLists = scanProjectTodos q.ID dir.todos := by
  exact (scanLoop_exact o dir.todos hm dir.projects 0 (by omega)
    (by simpa using hav)).2 ht

/-- C10 witness: cap 2 hit inside the second of two projects, with one todo
file present; the capped project carries no todo lists while the first
project keeps its attached list. -/
theorem C10_witness :
    ((0 : Int) < (exOpts 2 true).MaxSessions ∧
     (exOpts 2 true).MaxSessions ≤
       (availableSessions (exOpts 2 true) exDir.projects : Int) ∧
     (exOpts 2 true).IncludeTodos = true) ∧
    (∃ ps p, ScanProjects (exOpts 2 true) exDir = ps ++ [p] ∧
      p.TodoLists = [] ∧
      ∀ q ∈ ps, q.TodoLists = scanProjectTodos q.ID exDir.todos) := by
  exact ⟨⟨by decide, by decide, rfl⟩,
    C10_cap_skips_todos (exOpts 2 true) exDir (by decide) (by decide) rfl⟩

/-- C9 witness: a concrete assistant record whose payload fails the
assistant-schema unmarshal. -/
theorem C9_witness :
    ParseContent (mkMsg "a1" "" "assistant" 7) =
      (mkMsg "a1" "" "assistant" 7, some "unmarshal error") ∧
    mkMsg "a1" "" "assistant" 7 ∈
      (readSessionLoop [.record (mkMsg "a1" "" "assistant" 7)] 0
        emptySession).1.Messages := by
  have h := C9_assistant_decode_fallback (mkMsg "a1" "" "assistant" 7) [] []
    (by decide) (by decide)
  exact ⟨h.1, h.2.2⟩

end CCExport
